import Mathlib

/-!
Verification of the translation-application engine of `localize.ts`
(opencode Chinese localization tool).

Strings are modelled as `List Char`.  The file system is modelled as a
partial map from paths to file contents, and `applyTranslation`
additionally returns the list of writes it performed, so that
"at most one write" claims are expressible.

The source applies each replacement pair with
`content.replace(new RegExp(escapeRegex(original), "g"), translated)`.
Because the pattern is fully escaped, the regex matches exactly the
literal occurrences of `original` (proved below via a small regex
semantics: `lexPattern`, `regexSearch`), so the engine itself is
embedded as a literal, left-to-right, non-overlapping global
replacement; the replacement text goes through `getSubstitution`,
the ECMAScript `$`-template expansion used by `String.prototype.replace`
(with zero capture groups, since every group-opening character of the
pattern is escaped).
-/

namespace Localize

/-- The characters escaped by `escapeRegex` in the source
(`str.replace(/[.*+?^${}()|[\]\\]/g, "\\$&")`). -/
def specialChars : List Char :=
  ['.', '*', '+', '?', '^', '$', Char.ofNat 123, Char.ofNat 125,
   '(', ')', '|', '[', ']', '\\']

/-- `escapeRegex` from `localize.ts`: prepend a backslash to every
character that is special in a regular expression. -/
def escapeRegex (s : List Char) : List Char :=
  s.foldr (fun c acc => if c ∈ specialChars then '\\' :: c :: acc else c :: acc) []

/-- A single-character regex atom: a literal character or the `.` wildcard.
Escaped patterns compile to sequences of these. -/
inductive RAtom where
  | char (c : Char)
  | dot
deriving DecidableEq

/-- Compile a regex pattern string into a sequence of single-character atoms.
`\c` (for a special character `c`) is the literal `c`; an unescaped `.` is
the wildcard; any other unescaped special character is rejected (quantifiers
and classes never occur in patterns produced by `escapeRegex`). -/
def lexPattern : List Char → Option (List RAtom)
  | [] => some []
  | c :: rest =>
    if c = '\\' then
      match rest with
      | [] => none
      | d :: rest' =>
        if d ∈ specialChars then (lexPattern rest').map (RAtom.char d :: ·) else none
    else if c = '.' then (lexPattern rest).map (RAtom.dot :: ·)
    else if c ∈ specialChars then none
    else (lexPattern rest).map (RAtom.char c :: ·)

/-- Which characters an atom matches (`.` matches anything but a newline). -/
def atomMatches : RAtom → Char → Bool
  | RAtom.char c, d => c == d
  | RAtom.dot, d => d != '\n'

/-- Does the atom sequence match a prefix of `s` (consuming one char per atom)? -/
def matchHere : List RAtom → List Char → Bool
  | [], _ => true
  | _ :: _, [] => false
  | a :: p, c :: s => atomMatches a c && matchHere p s

/-- Does the pattern match anywhere inside `s` (regex search semantics)? -/
def regexSearch (p : List RAtom) : List Char → Bool
  | [] => matchHere p []
  | c :: s => matchHere p (c :: s) || regexSearch p s

/-- Does `o` occur in `s` as a literal (contiguous) substring? -/
def occursIn (o : List Char) : List Char → Bool
  | [] => o.isEmpty
  | c :: s => o.isPrefixOf (c :: s) || occursIn o s

/-- Matching behaviour of `new RegExp(escapeRegex orig)` on `content`:
compile the escaped pattern and search. -/
def regexMatchesEscaped (orig content : List Char) : Bool :=
  match lexPattern (escapeRegex orig) with
  | some p => regexSearch p content
  | none => false

/-- ECMAScript `GetSubstitution` for a pattern with zero capture groups,
as used by `content.replace(regex, translated)` in the source: in the
replacement text, `$$` yields `$`, `$&` yields the matched text,
a dollar followed by a backquote yields the part of the subject before the
match, a dollar followed by a quote yields the part after the match, and
every other `$`-sequence (in particular `$1`, since the escaped pattern has
no capture groups) is passed through literally. -/
def getSubstitution (matched before after : List Char) : List Char → List Char
  | [] => []
  | c :: rest =>
    if c = '$' then
      match rest with
      | [] => ['$']
      | d :: rest' =>
        if d = '$' then '$' :: getSubstitution matched before after rest'
        else if d = '&' then matched ++ getSubstitution matched before after rest'
        else if d = Char.ofNat 96 then before ++ getSubstitution matched before after rest'
        else if d = Char.ofNat 39 then after ++ getSubstitution matched before after rest'
        else '$' :: d :: getSubstitution matched before after rest'
    else c :: getSubstitution matched before after rest

/-- Count the non-overlapping left-to-right occurrences of a non-empty
pattern `orig`, scanning `s`; `skip` chars are still to be consumed by a
match already counted. -/
def countGo (orig : List Char) : List Char → Nat → Nat
  | [], _ => 0
  | _ :: s, Nat.succ k => countGo orig s k
  | c :: s, 0 =>
    if orig.isPrefixOf (c :: s) then countGo orig s (orig.length - 1) + 1
    else countGo orig s 0

/-- The number of matches `content.match(regex)` reports for the escaped
global regex of `orig` (an empty pattern matches once at every boundary,
`s.length + 1` in total, as in ECMAScript). -/
def countMatches (orig s : List Char) : Nat :=
  if orig.isEmpty then s.length + 1 else countGo orig s 0

/-- Global replacement for a non-empty pattern: scan the subject left to
right; at each match emit the `$`-expanded replacement and skip the
matched chars; `pre` is the already-consumed part of the subject
(needed for the dollar-backquote template). -/
def replGo (orig trans : List Char) : List Char → List Char → Nat → List Char
  | _, [], _ => []
  | pre, c :: s, Nat.succ k => replGo orig trans (pre ++ [c]) s k
  | pre, c :: s, 0 =>
    if orig.isPrefixOf (c :: s) then
      getSubstitution orig pre (s.drop (orig.length - 1)) trans
        ++ replGo orig trans (pre ++ [c]) s (orig.length - 1)
    else c :: replGo orig trans (pre ++ [c]) s 0

/-- Global replacement for the empty pattern: the replacement is emitted
at every boundary, as in ECMAScript. -/
def replEmpty (trans : List Char) : List Char → List Char → List Char
  | pre, [] => getSubstitution [] pre [] trans
  | pre, c :: s => getSubstitution [] pre (c :: s) trans ++ c :: replEmpty trans (pre ++ [c]) s

/-- `content.replace(new RegExp(escapeRegex orig, "g"), trans)` from the
source, embedded as literal global replacement with `$`-template expansion. -/
def jsReplace (orig trans content : List Char) : List Char :=
  if orig.isEmpty then replEmpty trans [] content else replGo orig trans [] content 0

/-- One iteration of the replacement loop of `applyTranslation`
(lines 125–136 of `localize.ts`): skip pairs whose original equals their
translated text; otherwise count the matches and, if any, replace globally
and add the match count to the running total. -/
def applyPairStep (acc : List Char × Nat) (p : List Char × List Char) : List Char × Nat :=
  if p.1 = p.2 then acc
  else
    let n := countMatches p.1 acc.1
    if n = 0 then acc else (jsReplace p.1 p.2 acc.1, acc.2 + n)

/-- The whole replacement loop of `applyTranslation`: fold the pairs, in
order, over the evolving content, starting from a zero total. -/
def applyTranslationPairs (ps : List (List Char × List Char)) (content : List Char) :
    List Char × Nat :=
  ps.foldl applyPairStep (content, 0)

/-- The spec's proviso for idempotence, read as strongly as possible:
some pair's translated text occurs in (or is a prefix of) some pair's
original text.  The claim's counterexample below satisfies the proviso's
negation even in this strong, any-pair reading. -/
def translatedMatchesSomeOriginal (d : List (List Char × List Char)) : Bool :=
  d.any fun q => d.any fun p => q.2.isPrefixOf p.1 || occursIn q.2 p.1

/-- Literal global replacement (non-empty pattern): the replacement text is
emitted verbatim at every non-overlapping occurrence.  Modelled from the
spec's words (§4.4: every occurrence of the original fragment is replaced
by the translated fragment), for comparison with `jsReplace`. -/
def litGo (orig trans : List Char) : List Char → Nat → List Char
  | [], _ => []
  | _ :: s, Nat.succ k => litGo orig trans s k
  | c :: s, 0 =>
    if orig.isPrefixOf (c :: s) then trans ++ litGo orig trans s (orig.length - 1)
    else c :: litGo orig trans s 0

/-- Literal global replacement for the empty pattern (verbatim replacement
text at every boundary). -/
def litEmpty (trans : List Char) : List Char → List Char
  | [] => trans
  | c :: s => trans ++ c :: litEmpty trans s

/-- Literal global replacement: each matched occurrence of `orig` is
replaced by exactly the text `trans`.  Modelled from the spec's words,
for comparison with `jsReplace`. -/
def literalReplaceAll (orig trans content : List Char) : List Char :=
  if orig.isEmpty then litEmpty trans content else litGo orig trans content 0

/-! The file-system layer -/

/-- The file system: a partial map from paths to file contents.
`fs p = none` models `fs.existsSync(p) == false`. -/
abbrev FS := List Char → Option (List Char)

/-- One translation document (`TranslationConfig` in `localize.ts`):
an optional target file and an ordered list of replacement pairs. -/
structure TranslationConfig where
  file : Option (List Char)
  replacements : List (List Char × List Char)

/-- The per-file result returned by `applyTranslation`. -/
structure ApplicationResult where
  file : List Char
  replacements : Nat
  skipped : Bool
  reason : Option (List Char)
deriving DecidableEq

/-- `path.join a b` for the simple relative paths used here. -/
def pathJoin (a b : List Char) : List Char := a ++ '/' :: b

/-- Lines 109–114 of `localize.ts`: a target starting with `src/` is nested
under `packages/opencode`; otherwise, a target not starting with
`packages/` gets the same nesting; otherwise the target is used unchanged. -/
def resolveRelative (t : List Char) : List Char :=
  if ("src/".data).isPrefixOf t then pathJoin (pathJoin "packages".data "opencode".data) t
  else if !(("packages/".data).isPrefixOf t) then
    pathJoin (pathJoin "packages".data "opencode".data) t
  else t

/-- `relativeFilePath || config.file` followed by the `if (!targetFile)`
guard: an `undefined` or empty override falls back to the document's own
target, and an `undefined` or empty result means no target at all
(JavaScript treats the empty string as falsy). -/
def pickTarget (override cfgFile : Option (List Char)) : Option (List Char) :=
  let t := match override with
    | some s => if s.isEmpty then cfgFile else some s
    | none => cfgFile
  match t with
  | some s => if s.isEmpty then none else some s
  | none => none

/-- `fs.writeFileSync`: point-update of the file system. -/
def writeFs (fs : FS) (p c : List Char) : FS :=
  fun q => if q = p then some c else fs q

/-- `applyTranslation` from `localize.ts` (lines 98–143).  Returns the
`ApplicationResult`, the file system after the call, and the list of
writes performed (the source calls `fs.writeFileSync` exactly once, and
only when the total replacement count is positive). -/
def applyTranslation (fs : FS) (opencodeDir : List Char) (config : TranslationConfig)
    (relativeFilePath : Option (List Char)) :
    ApplicationResult × FS × List (List Char × List Char) :=
  match pickTarget relativeFilePath config.file with
  | none => (⟨"unknown".data, 0, true, some "No file specified".data⟩, fs, [])
  | some targetFile =>
    let relativePath := resolveRelative targetFile
    let filePath := pathJoin opencodeDir relativePath
    match fs filePath with
    | none => (⟨targetFile, 0, true, some "File not found".data⟩, fs, [])
    | some content =>
      let r := applyTranslationPairs config.replacements content
      if r.2 > 0 then
        (⟨targetFile, r.2, false, none⟩, writeFs fs filePath r.1, [(filePath, r.1)])
      else
        (⟨targetFile, r.2, false, none⟩, fs, [])

/-! The batch applier -/

/-- The aggregate statistics of a run (`stats` in `main`). -/
structure RunStats where
  filesProcessed : Nat
  filesSkipped : Nat
  totalReplacements : Nat
deriving DecidableEq

/-- The body of the `for` loop of `processModule` (lines 513–533):
a document that fails to load increments `filesSkipped`; a skipped
result increments `filesSkipped`; a positive replacement count
increments `filesProcessed` and adds to `totalReplacements`; a zero
count increments `filesProcessed` only.  `docs` maps a document
reference to its loaded `TranslationConfig` (`none` models a missing
translation file). -/
def processStep (docs : List Char → Option TranslationConfig) (opencodeDir : List Char)
    (acc : RunStats × FS) (file : List Char) : RunStats × FS :=
  match docs file with
  | none => ({ acc.1 with filesSkipped := acc.1.filesSkipped + 1 }, acc.2)
  | some config =>
    let out := applyTranslation acc.2 opencodeDir config none
    if out.1.skipped then
      ({ acc.1 with filesSkipped := acc.1.filesSkipped + 1 }, out.2.1)
    else if out.1.replacements > 0 then
      ({ acc.1 with
          filesProcessed := acc.1.filesProcessed + 1,
          totalReplacements := acc.1.totalReplacements + out.1.replacements }, out.2.1)
    else
      ({ acc.1 with filesProcessed := acc.1.filesProcessed + 1 }, out.2.1)

/-- `processModule`: process one category's documents in declared order. -/
def processModule (docs : List Char → Option TranslationConfig) (opencodeDir : List Char)
    (files : List (List Char)) (init : RunStats × FS) : RunStats × FS :=
  files.foldl (processStep docs opencodeDir) init

/-- The optional category lists of the module manifest. -/
structure Modules where
  dialogs : Option (List (List Char))
  components : Option (List (List Char))
  routes : Option (List (List Char))
  common : Option (List (List Char))
  root : Option (List (List Char))

/-- The module manifest (`ModuleConfig` in `localize.ts`). -/
structure ModuleConfig where
  name : List Char
  version : List Char
  modules : Modules

/-- One `if (modules.X) processModule(...)` guard from `main`. -/
def runCategory (docs : List Char → Option TranslationConfig) (opencodeDir : List Char)
    (cat : Option (List (List Char))) (acc : RunStats × FS) : RunStats × FS :=
  match cat with
  | none => acc
  | some files => processModule docs opencodeDir files acc

/-- The category sequence of `main` (lines 539–553): root, dialogs,
components, routes, common, starting from zeroed statistics. -/
def runModules (docs : List Char → Option TranslationConfig) (opencodeDir : List Char)
    (mc : ModuleConfig) (fs : FS) : RunStats × FS :=
  runCategory docs opencodeDir mc.modules.common
    (runCategory docs opencodeDir mc.modules.routes
      (runCategory docs opencodeDir mc.modules.components
        (runCategory docs opencodeDir mc.modules.dialogs
          (runCategory docs opencodeDir mc.modules.root (⟨0, 0, 0⟩, fs)))))

/-- The translation phase of `main` (lines 493–553): the version
comparison only produces a warning flag (lines 493–500) and the
substitutions run regardless. -/
def runMain (treeVersion : List Char) (docs : List Char → Option TranslationConfig)
    (opencodeDir : List Char) (mc : ModuleConfig) (fs : FS) :
    Bool × RunStats × FS :=
  (!(treeVersion == mc.version), runModules docs opencodeDir mc fs)

/-! Concrete environments used by the accounting and version claims -/

/-- Document store for the aggregate-accounting scenario: document `1` is
missing, document `2` replaces `x` by `y` in `src/a`, document `3`
replaces `q` by `z` in `src/b`. -/
def docsC4 : List Char → Option TranslationConfig := fun f =>
  if f = ['2'] then some ⟨some "src/a".data, [(['x'], ['y'])]⟩
  else if f = ['3'] then some ⟨some "src/b".data, [(['q'], ['z'])]⟩
  else none

/-- Target-tree root for the accounting scenario. -/
def dirC4 : List Char := ['D']

/-- File system for the accounting scenario: `src/a` holds `xxx`
(three matches), `src/b` holds `hello` (no match). -/
def fsC4 : FS := fun p =>
  if p = pathJoin dirC4 (resolveRelative "src/a".data) then some ['x', 'x', 'x']
  else if p = pathJoin dirC4 (resolveRelative "src/b".data) then some "hello".data
  else none

/-- Manifest for the accounting scenario: categories
root = [1, 2] and dialogs = [3], declared version `1.2.10`. -/
def mcC4 : ModuleConfig :=
  ⟨"opencode-zh".data, "1.2.10".data,
   ⟨some [['3']], none, none, none, some [['1'], ['2']]⟩⟩

/-! Helper lemmas -/

theorem escapeRegex_cons (c : Char) (s : List Char) :
    escapeRegex (c :: s) =
      if c ∈ specialChars then '\\' :: c :: escapeRegex s else c :: escapeRegex s := rfl

theorem lexPattern_escape (o : List Char) :
    lexPattern (escapeRegex o) = some (o.map RAtom.char) := by
  induction o with
  | nil => rfl
  | cons c o ih =>
    by_cases hc : c ∈ specialChars
    · rw [escapeRegex_cons, if_pos hc, lexPattern.eq_def]
      simp [hc, ih]
    · have h1 : c ≠ '\\' := fun h => hc (h ▸ (by decide))
      have h2 : c ≠ '.' := fun h => hc (h ▸ (by decide))
      rw [escapeRegex_cons, if_neg hc, lexPattern.eq_def]
      simp [h1, h2, hc, ih]

theorem matchHere_map_char (o : List Char) :
    ∀ s : List Char, matchHere (o.map RAtom.char) s = o.isPrefixOf s := by
  induction o with
  | nil => intro s; cases s <;> rfl
  | cons c o ih =>
    intro s
    cases s with
    | nil => rfl
    | cons d s => simp [matchHere, atomMatches, List.isPrefixOf, ih]

theorem regexSearch_map_char (o : List Char) :
    ∀ s : List Char, regexSearch (o.map RAtom.char) s = occursIn o s := by
  intro s
  induction s with
  | nil =>
    show matchHere (o.map RAtom.char) [] = occursIn o []
    rw [matchHere_map_char]
    cases o <;> rfl
  | cons c s ih => simp [regexSearch, occursIn, matchHere_map_char, ih]

theorem occursIn_nil_left (s : List Char) : occursIn [] s = true := by
  cases s <;> simp [occursIn, List.isPrefixOf]

theorem countGo_eq_zero (o : List Char) :
    ∀ s : List Char, occursIn o s = false → countGo o s 0 = 0 := by
  intro s
  induction s with
  | nil => intro _; rfl
  | cons c s ih =>
    intro h
    simp only [occursIn, Bool.or_eq_false_iff] at h
    simp [countGo, h.1, ih h.2]

theorem countMatches_eq_zero (o s : List Char) (h : occursIn o s = false) :
    countMatches o s = 0 := by
  have ho : o.isEmpty = false := by
    cases o with
    | nil => rw [occursIn_nil_left] at h; cases h
    | cons _ _ => rfl
  simp [countMatches, ho, countGo_eq_zero o s h]

theorem applyPairStep_id (acc : List Char × Nat) (p : List Char × List Char)
    (h : p.1 = p.2 ∨ occursIn p.1 acc.1 = false) : applyPairStep acc p = acc := by
  rcases h with h | h
  · simp [applyPairStep, h]
  · by_cases he : p.1 = p.2
    · simp [applyPairStep, he]
    · simp [applyPairStep, he, countMatches_eq_zero _ _ h]

theorem foldl_applyPairStep_id (ps : List (List Char × List Char)) (c : List Char)
    (h : ∀ p ∈ ps, p.1 = p.2 ∨ occursIn p.1 c = false) :
    ∀ t : Nat, ps.foldl applyPairStep (c, t) = (c, t) := by
  induction ps with
  | nil => intro t; rfl
  | cons p ps ih =>
    intro t
    have h1 := h p (List.mem_cons_self p ps)
    have h2 : ∀ q ∈ ps, q.1 = q.2 ∨ occursIn q.1 c = false :=
      fun q hq => h q (List.mem_cons_of_mem p hq)
    rw [List.foldl_cons, applyPairStep_id (c, t) p h1]
    exact ih h2 t

theorem getSubstitution_no_dollar (m b a : List Char) :
    ∀ t : List Char, '$' ∉ t → getSubstitution m b a t = t := by
  intro t
  induction t with
  | nil => intro _; rfl
  | cons c rest ih =>
    intro h
    have hc : c ≠ '$' := fun he => h (he ▸ List.mem_cons_self c rest)
    have hrest : '$' ∉ rest := fun hm => h (List.mem_cons_of_mem c hm)
    rw [getSubstitution.eq_def]
    simp only []
    rw [if_neg hc, ih hrest]

theorem replGo_eq_litGo (o t : List Char) (h : '$' ∉ t) :
    ∀ (s pre : List Char) (k : Nat), replGo o t pre s k = litGo o t s k := by
  intro s
  induction s with
  | nil => intro pre k; cases k <;> rfl
  | cons c s ih =>
    intro pre k
    cases k with
    | succ k => simp [replGo, litGo, ih]
    | zero =>
      by_cases hp : o.isPrefixOf (c :: s)
      · simp [replGo, litGo, hp, getSubstitution_no_dollar _ _ _ _ h, ih]
      · simp [replGo, litGo, hp, ih]

theorem replEmpty_eq_litEmpty (t : List Char) (h : '$' ∉ t) :
    ∀ (s pre : List Char), replEmpty t pre s = litEmpty t s := by
  intro s
  induction s with
  | nil => intro pre; simp [replEmpty, litEmpty, getSubstitution_no_dollar _ _ _ _ h]
  | cons c s ih =>
    intro pre
    simp [replEmpty, litEmpty, getSubstitution_no_dollar _ _ _ _ h, ih]

theorem jsReplace_eq_literal (o t c : List Char) (h : '$' ∉ t) :
    jsReplace o t c = literalReplaceAll o t c := by
  by_cases ho : o.isEmpty
  · simp [jsReplace, literalReplaceAll, ho, replEmpty_eq_litEmpty t h]
  · simp [jsReplace, literalReplaceAll, ho, replGo_eq_litGo o t h]

theorem src_prefixOf_false_of_packages (t : List Char)
    (h : ("packages/".data).isPrefixOf t = true) :
    ("src/".data).isPrefixOf t = false := by
  cases t with
  | nil => exact absurd h (by decide)
  | cons c t' =>
    have hstep : ("packages/".data).isPrefixOf (c :: t') =
        (('p' == c) && (("ackages/".data).isPrefixOf t')) := rfl
    rw [hstep] at h
    rw [Bool.and_eq_true] at h
    have hc : 'p' = c := eq_of_beq h.1
    have hgoal : ("src/".data).isPrefixOf (c :: t') =
        (('s' == c) && (("rc/".data).isPrefixOf t')) := rfl
    rw [hgoal, ← hc]
    simp

theorem applyTranslation_no_target (fs : FS) (dir : List Char) (cfg : TranslationConfig)
    (ov : Option (List Char)) (h : pickTarget ov cfg.file = none) :
    applyTranslation fs dir cfg ov
      = (⟨"unknown".data, 0, true, some "No file specified".data⟩, fs, []) := by
  simp only [applyTranslation, h]

theorem applyTranslation_not_found (fs : FS) (dir : List Char) (cfg : TranslationConfig)
    (ov : Option (List Char)) (t : List Char) (h : pickTarget ov cfg.file = some t)
    (hf : fs (pathJoin dir (resolveRelative t)) = none) :
    applyTranslation fs dir cfg ov
      = (⟨t, 0, true, some "File not found".data⟩, fs, []) := by
  simp only [applyTranslation, h, hf]

theorem applyTranslation_found (fs : FS) (dir : List Char) (cfg : TranslationConfig)
    (ov : Option (List Char)) (t content : List Char) (h : pickTarget ov cfg.file = some t)
    (hf : fs (pathJoin dir (resolveRelative t)) = some content) :
    applyTranslation fs dir cfg ov
      = (if (applyTranslationPairs cfg.replacements content).2 > 0 then
          (⟨t, (applyTranslationPairs cfg.replacements content).2, false, none⟩,
            writeFs fs (pathJoin dir (resolveRelative t))
              (applyTranslationPairs cfg.replacements content).1,
            [(pathJoin dir (resolveRelative t),
              (applyTranslationPairs cfg.replacements content).1)])
        else
          (⟨t, (applyTranslationPairs cfg.replacements content).2, false, none⟩, fs, [])) := by
  simp only [applyTranslation, h, hf]

/-! Claim theorems -/

/-- C1: the substitution engine applies replacement pairs sequentially over
the evolving content — replacement N+1's input is replacement N's output.
For the pair list [("A","B"), ("B","C")] applied to content "A" the final
content is "C" (with 2 replacements counted), not the snapshot-based "B";
and in general the loop over `ps ++ [p]` runs `p` on the output of `ps`. -/
theorem c1_chained_ordering :
    applyTranslationPairs [(['A'], ['B']), (['B'], ['C'])] ['A'] = (['C'], 2)
    ∧ (∀ (ps : List (List Char × List Char)) (p : List Char × List Char) (c : List Char),
        applyTranslationPairs (ps ++ [p]) c = applyPairStep (applyTranslationPairs ps c) p) := by
  refine ⟨by decide, fun ps p c => ?_⟩
  simp [applyTranslationPairs, List.foldl_append]

/-- C2: the escaped original fragment matches only as a literal substring:
for every original and every content, the compiled regex of
`escapeRegex orig` finds a match exactly when `orig` occurs literally in
the content.  In particular the escaped "a.b" does not match "aXb"
(whereas the unescaped pattern "a.b" does), and the escaped "API key"
does not match "APIXkey". -/
theorem c2_literal_match_safety :
    (∀ orig content : List Char, regexMatchesEscaped orig content = occursIn orig content)
    ∧ regexMatchesEscaped ['a', '.', 'b'] ['a', 'X', 'b'] = false
    ∧ (lexPattern ['a', '.', 'b']).map (fun p => regexSearch p ['a', 'X', 'b']) = some true
    ∧ regexMatchesEscaped ("API key".data) ("APIXkey".data) = false := by
  refine ⟨fun orig content => ?_, by decide, by decide, by decide⟩
  simp only [regexMatchesEscaped, lexPattern_escape]
  exact regexSearch_map_char orig content

/-- C5 counterexample: the claim's idempotence fails on the code even when
its proviso holds.  The single-pair document [("aa","ba")] satisfies the
proviso (its translated value "ba" is neither a prefix of nor a match
inside any pair's original value), yet applying it to "aaa" yields "baa",
and the second application reports 1 replacement (not 0) and changes the
content to "bba". -/
theorem c5_idempotence_counterexample :
    translatedMatchesSomeOriginal [(['a', 'a'], ['b', 'a'])] = false
    ∧ applyTranslationPairs [(['a', 'a'], ['b', 'a'])] ['a', 'a', 'a'] = (['b', 'a', 'a'], 1)
    ∧ applyTranslationPairs [(['a', 'a'], ['b', 'a'])] ['b', 'a', 'a'] = (['b', 'b', 'a'], 1) :=
  ⟨by decide, by decide, by decide⟩

/-- C5 amended: applying the same document twice is idempotent provided no
effective pair's original fragment occurs in the content produced by the
first application: then the second application reports 0 replacements and
leaves the content unchanged. -/
theorem c5_idempotence_amended (ps : List (List Char × List Char)) (c : List Char)
    (h : ∀ p ∈ ps, p.1 ≠ p.2 → occursIn p.1 (applyTranslationPairs ps c).1 = false) :
    applyTranslationPairs ps (applyTranslationPairs ps c).1 =
      ((applyTranslationPairs ps c).1, 0) := by
  refine foldl_applyPairStep_id ps (applyTranslationPairs ps c).1 ?_ 0
  intro p hp
  by_cases he : p.1 = p.2
  · exact Or.inl he
  · exact Or.inr (h p hp he)

/-- C5 witness: the amended idempotence at the document [("a","b")] and
content "a". -/
theorem c5_idempotence_amended_witness :
    applyTranslationPairs [(['a'], ['b'])] (applyTranslationPairs [(['a'], ['b'])] ['a']).1
      = ((applyTranslationPairs [(['a'], ['b'])] ['a']).1, 0) :=
  c5_idempotence_amended [(['a'], ['b'])] ['a'] (by decide)

/-- C8: a replacement pair whose original equals its translated value is a
no-op: it never changes the accumulated content or count, and deleting it
from anywhere in the pair list leaves the engine's result unchanged. -/
theorem c8_equal_pair_noop :
    (∀ (acc : List Char × Nat) (s : List Char), applyPairStep acc (s, s) = acc)
    ∧ (∀ (ps qs : List (List Char × List Char)) (s c : List Char),
        applyTranslationPairs (ps ++ (s, s) :: qs) c = applyTranslationPairs (ps ++ qs) c) := by
  have hstep : ∀ (acc : List Char × Nat) (s : List Char), applyPairStep acc (s, s) = acc := by
    intro acc s; simp [applyPairStep]
  refine ⟨hstep, fun ps qs s c => ?_⟩
  simp [applyTranslationPairs, List.foldl_append, List.foldl_cons, hstep]

/-- C9: the version comparison is advisory only: the mismatch flag is
exactly the inequality of the two version strings, the statistics do not
depend on the tree version at all, and the concrete run with tree version
"1.2.11" against manifest version "1.2.10" raises the flag yet still
executes all substitutions and returns the normal statistics. -/
theorem c9_version_mismatch_advisory :
    (∀ (v : List Char) (docs : List Char → Option TranslationConfig) (dir : List Char)
        (mc : ModuleConfig) (fs : FS),
        (runMain v docs dir mc fs).1 = !(v == mc.version)
        ∧ (runMain v docs dir mc fs).2 = runModules docs dir mc fs
        ∧ (runMain v docs dir mc fs).2 = (runMain mc.version docs dir mc fs).2)
    ∧ (runMain ("1.2.11".data) docsC4 dirC4 mcC4 fsC4).1 = true
    ∧ (runMain ("1.2.11".data) docsC4 dirC4 mcC4 fsC4).2.1 = ⟨2, 1, 3⟩ :=
  ⟨fun _ _ _ _ _ => ⟨rfl, rfl, rfl⟩, by decide, by decide⟩

/-- C10 counterexample: the claim that translated values containing
'$'-sequences such as "$1" do not produce the literal translated text is
false: the escaped pattern has no capture groups, so ECMAScript passes
"$1" through literally, and replacing "A" by "$1" in content "A" produces
exactly the literal translated text "$1" (identical to the purely literal
replacement). -/
theorem c10_translated_dollar_counterexample :
    applyTranslationPairs [(['A'], ['$', '1'])] ['A'] = (['$', '1'], 1)
    ∧ jsReplace ['A'] ['$', '1'] ['A'] = literalReplaceAll ['A'] ['$', '1'] ['A'] :=
  ⟨by decide, by decide⟩

/-- C10 amended: a translated value containing no '$' replaces each match
by exactly the literal translated text ('$'-expansion is the identity on
it, and the engine's replacement coincides with the purely literal one);
the translated value is not escaped, so the sequences the facility
substitutes even without capture groups are interpreted rather than
copied ("$&" becomes the matched text, so "AB" → "$&" leaves "xABy"
unchanged where the literal replacement would give "x$&y"), while a
group reference like "$1" passes through literally because the escaped
pattern has no capture groups. -/
theorem c10_translated_amended :
    (∀ m b a t : List Char, '$' ∉ t → getSubstitution m b a t = t)
    ∧ (∀ o t c : List Char, '$' ∉ t → jsReplace o t c = literalReplaceAll o t c)
    ∧ jsReplace ['A', 'B'] ['$', '&'] ['x', 'A', 'B', 'y'] = ['x', 'A', 'B', 'y']
    ∧ literalReplaceAll ['A', 'B'] ['$', '&'] ['x', 'A', 'B', 'y'] = ['x', '$', '&', 'y']
    ∧ (∀ m b a rest : List Char,
        getSubstitution m b a ('$' :: '1' :: rest) = '$' :: '1' :: getSubstitution m b a rest) := by
  refine ⟨fun m b a t h => getSubstitution_no_dollar m b a t h,
    fun o t c h => jsReplace_eq_literal o t c h, by decide, by decide,
    fun m b a rest => rfl⟩

/-- C10 witness: the amended literal-replacement property at a concrete
'$'-free translated value. -/
theorem c10_translated_amended_witness :
    jsReplace ['A'] ['B'] ['A', 'A'] = literalReplaceAll ['A'] ['B'] ['A', 'A'] :=
  c10_translated_amended.2.1 ['A'] ['B'] ['A', 'A'] (by decide)

/-- C3: `applyTranslation` has exactly two skip outcomes, each with zero
replacements and no file write: an undeterminable target path yields
reason "No file specified", and a resolved path absent from the file
system yields reason "File not found"; and in every result, a skipped
result has zero replacements, performs no write, and leaves the file
system unchanged. -/
theorem c3_skip_outcomes (fs : FS) (dir : List Char) (cfg : TranslationConfig)
    (ov : Option (List Char)) :
    ((applyTranslation fs dir cfg ov).1.skipped = true →
      (applyTranslation fs dir cfg ov).1.replacements = 0
      ∧ (applyTranslation fs dir cfg ov).2.2 = []
      ∧ (applyTranslation fs dir cfg ov).2.1 = fs)
    ∧ (pickTarget ov cfg.file = none →
      (applyTranslation fs dir cfg ov).1.skipped = true
      ∧ (applyTranslation fs dir cfg ov).1.reason = some "No file specified".data)
    ∧ (∀ t : List Char, pickTarget ov cfg.file = some t →
      fs (pathJoin dir (resolveRelative t)) = none →
      (applyTranslation fs dir cfg ov).1.skipped = true
      ∧ (applyTranslation fs dir cfg ov).1.reason = some "File not found".data)
    ∧ ((applyTranslation fs dir cfg ov).1.skipped = true →
      (applyTranslation fs dir cfg ov).1.reason = some "No file specified".data
      ∨ (applyTranslation fs dir cfg ov).1.reason = some "File not found".data) := by
  rcases hpt : pickTarget ov cfg.file with _ | t
  · rw [applyTranslation_no_target fs dir cfg ov hpt]
    refine ⟨fun _ => ⟨rfl, rfl, rfl⟩, fun _ => ⟨rfl, rfl⟩, fun t' ht' _ => ?_,
      fun _ => Or.inl rfl⟩
    cases ht'
  · rcases hfs : fs (pathJoin dir (resolveRelative t)) with _ | content
    · rw [applyTranslation_not_found fs dir cfg ov t hpt hfs]
      refine ⟨fun _ => ⟨rfl, rfl, rfl⟩, fun h0 => ?_, fun t' ht' _ => ?_, fun _ => Or.inr rfl⟩
      · cases h0
      · exact ⟨rfl, rfl⟩
    · rw [applyTranslation_found fs dir cfg ov t content hpt hfs]
      by_cases hn : (applyTranslationPairs cfg.replacements content).2 > 0
      · rw [if_pos hn]
        refine ⟨fun hsk => ?_, fun h0 => ?_, fun t' ht' hf' => ?_, fun hsk => ?_⟩
        · simp at hsk
        · cases h0
        · injection ht' with he
          subst he
          rw [hfs] at hf'; cases hf'
        · simp at hsk
      · rw [if_neg hn]
        refine ⟨fun hsk => ?_, fun h0 => ?_, fun t' ht' hf' => ?_, fun hsk => ?_⟩
        · simp at hsk
        · cases h0
        · injection ht' with he
          subst he
          rw [hfs] at hf'; cases hf'
        · simp at hsk

/-- C3 witness: a document with no target path is skipped with reason
"No file specified". -/
theorem c3_skip_outcomes_witness :
    (applyTranslation (fun _ => none) ['d'] ⟨none, []⟩ none).1.skipped = true
    ∧ (applyTranslation (fun _ => none) ['d'] ⟨none, []⟩ none).1.reason
        = some "No file specified".data :=
  (c3_skip_outcomes (fun _ => none) ['d'] ⟨none, []⟩ none).2.1 rfl

/-- C6: `applyTranslation` performs at most one file write per invocation;
its write list is empty exactly when the replacement count is zero (so
the file is written back iff the count is positive), a zero count leaves
the file system untouched, and a performed write makes the new file
system the point-update of the old one. -/
theorem c6_single_write (fs : FS) (dir : List Char) (cfg : TranslationConfig)
    (ov : Option (List Char)) :
    (applyTranslation fs dir cfg ov).2.2.length ≤ 1
    ∧ ((applyTranslation fs dir cfg ov).2.2 = []
        ↔ (applyTranslation fs dir cfg ov).1.replacements = 0)
    ∧ ((applyTranslation fs dir cfg ov).1.replacements = 0 →
        (applyTranslation fs dir cfg ov).2.1 = fs)
    ∧ (∀ p c : List Char, (applyTranslation fs dir cfg ov).2.2 = [(p, c)] →
        (applyTranslation fs dir cfg ov).2.1 = writeFs fs p c) := by
  rcases hpt : pickTarget ov cfg.file with _ | t
  · rw [applyTranslation_no_target fs dir cfg ov hpt]
    exact ⟨by simp, by simp, fun _ => rfl, fun p c hc => absurd hc (by simp)⟩
  · rcases hfs : fs (pathJoin dir (resolveRelative t)) with _ | content
    · rw [applyTranslation_not_found fs dir cfg ov t hpt hfs]
      exact ⟨by simp, by simp, fun _ => rfl, fun p c hc => absurd hc (by simp)⟩
    · rw [applyTranslation_found fs dir cfg ov t content hpt hfs]
      by_cases hn : (applyTranslationPairs cfg.replacements content).2 > 0
      · rw [if_pos hn]
        have hne : (applyTranslationPairs cfg.replacements content).2 ≠ 0 := by omega
        refine ⟨by simp, ⟨fun hh => absurd hh (by simp), fun hh => absurd hh hne⟩,
          fun hh => absurd hh hne, fun p c hc => ?_⟩
        simp only [List.cons.injEq, and_true, Prod.mk.injEq] at hc
        rw [← hc.1, ← hc.2]
      · rw [if_neg hn]
        have h0 : (applyTranslationPairs cfg.replacements content).2 = 0 := by omega
        exact ⟨by simp, ⟨fun _ => h0, fun _ => rfl⟩, fun _ => rfl,
          fun p c hc => absurd hc (by simp)⟩

/-- C6 witness: a skipped application (zero replacements) leaves the file
system unchanged. -/
theorem c6_single_write_witness :
    (applyTranslation (fun _ => none) ['d'] ⟨some ['f'], []⟩ none).2.1 = (fun _ => none) :=
  (c6_single_write (fun _ => none) ['d'] ⟨some ['f'], []⟩ none).2.2.1 rfl

/-- C7: path resolution applies exactly one rule, first match wins: a
target starting with "src/" is nested under "packages/opencode"; a target
not starting with "packages/" gets the same nesting; a target already
starting with "packages/" is used unchanged; and the engine checks
existence at the resolved path joined under the target-tree root (the
resolver itself is a pure function of the target). -/
theorem c7_path_resolution :
    (∀ t : List Char, ("src/".data).isPrefixOf t = true →
        resolveRelative t = pathJoin (pathJoin "packages".data "opencode".data) t)
    ∧ (∀ t : List Char, ("packages/".data).isPrefixOf t = false →
        resolveRelative t = pathJoin (pathJoin "packages".data "opencode".data) t)
    ∧ (∀ t : List Char, ("packages/".data).isPrefixOf t = true → resolveRelative t = t)
    ∧ (∀ (fs : FS) (dir : List Char) (cfg : TranslationConfig) (ov : Option (List Char))
        (t : List Char), pickTarget ov cfg.file = some t →
        ((applyTranslation fs dir cfg ov).1.skipped = true
          ↔ fs (pathJoin dir (resolveRelative t)) = none)) := by
  refine ⟨fun t h => ?_, fun t h => ?_, fun t h => ?_, fun fs dir cfg ov t h => ?_⟩
  · simp [resolveRelative, h]
  · by_cases hs : ("src/".data).isPrefixOf t <;> simp [resolveRelative, hs, h]
  · have hs := src_prefixOf_false_of_packages t h
    simp [resolveRelative, hs, h]
  · rcases hfs : fs (pathJoin dir (resolveRelative t)) with _ | content
    · rw [applyTranslation_not_found fs dir cfg ov t h hfs]
      simp
    · rw [applyTranslation_found fs dir cfg ov t content h hfs]
      by_cases hn : (applyTranslationPairs cfg.replacements content).2 > 0
      · rw [if_pos hn]; simp
      · rw [if_neg hn]; simp

/-- C7 witness: a target under "src/" is nested under "packages/opencode". -/
theorem c7_path_resolution_witness :
    resolveRelative ("src/x".data)
      = pathJoin (pathJoin "packages".data "opencode".data) ("src/x".data) :=
  c7_path_resolution.1 ("src/x".data) (by decide)

/-- C4: the batch applier classifies each document: a load failure or a
skipped result increments `filesSkipped`; a positive replacement count
increments `filesProcessed` and adds to `totalReplacements`; a zero count
increments `filesProcessed` only.  For the concrete manifest with
categories {root: 2 docs, dialogs: 1 doc} where one document is missing,
one resolves with 3 replacements and one resolves with 0 replacements,
the final statistics are filesProcessed=2, filesSkipped=1,
totalReplacements=3. -/
theorem c4_aggregate_accounting :
    (runModules docsC4 dirC4 mcC4 fsC4).1 = ⟨2, 1, 3⟩
    ∧ (∀ (docs : List Char → Option TranslationConfig) (dir : List Char)
        (stats : RunStats) (fs : FS) (f : List Char), docs f = none →
        processStep docs dir (stats, fs) f
          = ({ stats with filesSkipped := stats.filesSkipped + 1 }, fs))
    ∧ (∀ (docs : List Char → Option TranslationConfig) (dir : List Char)
        (stats : RunStats) (fs : FS) (f : List Char) (cfg : TranslationConfig),
        docs f = some cfg →
        (applyTranslation fs dir cfg none).1.skipped = true →
        processStep docs dir (stats, fs) f
          = ({ stats with filesSkipped := stats.filesSkipped + 1 },
             (applyTranslation fs dir cfg none).2.1))
    ∧ (∀ (docs : List Char → Option TranslationConfig) (dir : List Char)
        (stats : RunStats) (fs : FS) (f : List Char) (cfg : TranslationConfig),
        docs f = some cfg →
        (applyTranslation fs dir cfg none).1.skipped = false →
        0 < (applyTranslation fs dir cfg none).1.replacements →
        processStep docs dir (stats, fs) f
          = (⟨stats.filesProcessed + 1, stats.filesSkipped,
                stats.totalReplacements + (applyTranslation fs dir cfg none).1.replacements⟩,
             (applyTranslation fs dir cfg none).2.1))
    ∧ (∀ (docs : List Char → Option TranslationConfig) (dir : List Char)
        (stats : RunStats) (fs : FS) (f : List Char) (cfg : TranslationConfig),
        docs f = some cfg →
        (applyTranslation fs dir cfg none).1.skipped = false →
        (applyTranslation fs dir cfg none).1.replacements = 0 →
        processStep docs dir (stats, fs) f
          = ({ stats with filesProcessed := stats.filesProcessed + 1 },
             (applyTranslation fs dir cfg none).2.1)) := by
  refine ⟨by decide, fun docs dir stats fs f h => ?_,
    fun docs dir stats fs f cfg h hs => ?_,
    fun docs dir stats fs f cfg h hs hn => ?_,
    fun docs dir stats fs f cfg h hs hn => ?_⟩
  · simp [processStep, h]
  · simp [processStep, h, hs]
  · simp [processStep, h, hs, hn]
  · simp [processStep, h, hs, hn]

/-- C4 witness: a missing document increments `filesSkipped` and leaves
the file system alone. -/
theorem c4_aggregate_accounting_witness :
    processStep docsC4 dirC4 (⟨0, 0, 0⟩, fsC4) ['1'] = (⟨0, 1, 0⟩, fsC4) :=
  c4_aggregate_accounting.2.1 docsC4 dirC4 ⟨0, 0, 0⟩ fsC4 ['1'] rfl

end Localize
